import Mathlib

/-!
# Verification of the GuidedHRTFsPython sweep-and-deconvolution engine

Shallow embedding of `measurement.py` (module-level functions `deconv`,
`deconvolve`, `make_excitation_sweep` and the `Measurement` session class)
over exact real arithmetic.  NumPy arrays become Lean lists of reals (or
index functions for 2-D buffers); NumPy/Python failures (shape mismatches,
index errors) become `Option`.  The external scipy filter design
(`scipy.signal.butter`) is modelled at its boundary: a Butterworth design
is an abstract list of second-order-section coefficients, while
`scipy.signal.sosfilt` (a documented direct-form-II-transposed biquad
cascade) is embedded concretely.
-/

open scoped Real

namespace GuidedHRTFs

/-- `np.linspace a b n` at index `i` (endpoint included):
for `n = 1` NumPy returns `[a]`, otherwise the step is `(b - a)/(n - 1)`. -/
noncomputable def linVal (a b : ℝ) (n i : ℕ) : ℝ :=
  if n = 1 then a else a + i * ((b - a) / ((n : ℝ) - 1))

/-- Effective start index of the Python slice `v[a : stop]` on a length-`n`
array: a negative `a` counts from the end and is clamped at `0`, a
non-negative `a` is clamped at `n`. -/
def pySliceStart (n : ℕ) (a : ℤ) : ℕ :=
  if a < 0 then (max ((n : ℤ) + a) 0).toNat else min a.toNat n

/-- `np.max` over a 1-D array (errors on an empty array in NumPy; the
`0` for `[]` is junk, theorems about the feedback check assume a
non-empty recording). -/
def npMax (l : List ℝ) : ℝ :=
  match l with
  | [] => 0
  | a :: t => t.foldl max a

/-- `np.min` over a 1-D array (junk `0` for the empty array, as `npMax`). -/
def npMin (l : List ℝ) : ℝ :=
  match l with
  | [] => 0
  | a :: t => t.foldl min a

/-- Squared-cosine fade value: `np.cos(np.linspace(0, π/2, n))**2` at
index `i`. -/
noncomputable def fadeVal (n i : ℕ) : ℝ := Real.cos (linVal 0 (π / 2) n i) ^ 2

/-- The fade-out window of length `len` with a `fade`-sample tail:
`window = np.ones(len); window[len - fade : len] = fadeTmp` (meaningful
when `fade ≤ len`, mirroring the successful NumPy slice assignment). -/
noncomputable def windowVal (len fade i : ℕ) : ℝ :=
  if i < len - fade then 1 else fadeVal fade (i - (len - fade))

/-- Full-spectrum DFT of a complex list (NumPy `fft` with the default
length `n = len`). -/
noncomputable def dftC (v : List ℂ) : List ℂ :=
  (List.range v.length).map fun k : ℕ =>
    ∑ j ∈ Finset.range v.length,
      v.getD j 0 * Complex.exp (-2 * π * Complex.I * j * (k : ℂ) / v.length)

/-- `np.fft.fft` on a real list. -/
noncomputable def fftR (v : List ℝ) : List ℂ :=
  dftC (v.map fun r => (r : ℂ))

/-- `np.fft.ifft`. -/
noncomputable def ifftC (V : List ℂ) : List ℂ :=
  (List.range V.length).map fun j : ℕ =>
    (∑ k ∈ Finset.range V.length,
      V.getD k 0 * Complex.exp (2 * π * Complex.I * (j : ℂ) * k / V.length)) / V.length

/-- The transform length of both deconvolution routines:
`n = ceil(log2 L) + 1; N = 2 ** n` (for `L ≥ 1`,
`Nat.clog 2 L = ⌈log2 L⌉`). -/
def nfft (L : ℕ) : ℕ := 2 ^ (Nat.clog 2 L + 1)

/-- `deconv(x, y)` from `measurement.py`: unregularized frequency-domain
deconvolution.  Zero-pads both signals to `nfft (len y)`, divides the
spectra, truncates the real inverse transform to `len y`, then assigns a
fixed 2000-sample squared-cosine fade into the tail of a ones window and
multiplies it in.  `none` models the NumPy failures: `fft` on an empty
array, a broadcast mismatch in `fft(y)/fft(x)` when the padded lengths
differ, and the `ValueError` of the window slice assignment
`window[len - 2000 : len] = fade_tmp` when the slice does not have
exactly 2000 samples. -/
noncomputable def deconv (x y : List ℝ) : Option (List ℝ) :=
  let inputLength := y.length
  if inputLength = 0 then none
  else
    let paddedLength := nfft inputLength
    let numZeros := paddedLength - inputLength
    let xp := x ++ List.replicate numZeros 0
    let yp := y ++ List.replicate numZeros 0
    if xp.length ≠ yp.length then none
    else
      let h := ((ifftC (List.zipWith (· / ·) (fftR yp) (fftR xp))).map Complex.re).take
        inputLength
      let fadeoutLength : ℕ := 2000
      let start := pySliceStart inputLength ((inputLength : ℤ) - (fadeoutLength : ℤ))
      if inputLength - start ≠ fadeoutLength then none
      else
        some (List.zipWith (· * ·) h
          ((List.range inputLength).map (windowVal inputLength fadeoutLength)))

/-- `np.fft.rfft(v, N)`: half-spectrum DFT at transform length `N`
(`v` is zero-padded or truncated to `N` samples; bins `k = 0 .. N/2`). -/
noncomputable def rfftL (v : List ℝ) (N : ℕ) : List ℂ :=
  (List.range (N / 2 + 1)).map fun k : ℕ =>
    ∑ j ∈ Finset.range N,
      ((v.getD j 0 : ℝ) : ℂ) * Complex.exp (-2 * π * Complex.I * j * (k : ℂ) / N)

/-- Hermitian extension of a half spectrum to a full length-`N` spectrum,
as `np.fft.irfft` reconstructs it. -/
noncomputable def hermExt (H : List ℂ) (N k : ℕ) : ℂ :=
  if k ≤ N / 2 then H.getD k 0 else (starRingEnd ℂ) (H.getD (N - k) 0)

/-- `np.fft.irfft(H, N)`: real inverse transform of a half spectrum. -/
noncomputable def irfftL (H : List ℂ) (N : ℕ) : List ℝ :=
  (List.range N).map fun j : ℕ =>
    ((∑ k ∈ Finset.range N,
      hermExt H N k * Complex.exp (2 * π * Complex.I * (j : ℂ) * k / N)) / N).re

/-- The dynamic-limiting step of `deconvolve`: with
`min_mag = np.min(np.abs(X_inv))` and
`mag_limit = min_mag * 10 ** (abs(max_inv_dyn) / 20)`, every bin whose
magnitude exceeds `mag_limit` is replaced by
`mag_limit * np.exp(1j * np.angle(bin))`. -/
noncomputable def dynLimit (maxInvDyn : ℝ) (X : List ℂ) : List ℂ :=
  let minMag := npMin (X.map Complex.abs)
  let magLimit := minMag * (10 : ℝ) ^ (|maxInvDyn| / 20)
  X.map fun z =>
    if magLimit < Complex.abs z then
      (magLimit : ℂ) * Complex.exp (z.arg * Complex.I)
    else z

/-- One second-order section (biquad) of a `scipy.signal.butter(...,
output='sos')` design, with the denominator normalised to `a0 = 1`.
The coefficient values themselves come from the external scipy design
routine, so theorems quantify over them. -/
structure SOSec where
  b0 : ℝ
  b1 : ℝ
  b2 : ℝ
  a1 : ℝ
  a2 : ℝ

/-- One biquad in direct form II transposed (the documented
`scipy.signal.sosfilt` recurrence), carrying the two state variables. -/
noncomputable def biquadGo (c : SOSec) : ℝ → ℝ → List ℝ → List ℝ
  | _, _, [] => []
  | s1, s2, xn :: rest =>
    let yn := c.b0 * xn + s1
    biquadGo c (c.b1 * xn - c.a1 * yn + s2) (c.b2 * xn - c.a2 * yn) rest |>.cons yn

/-- `scipy.signal.sosfilt` with zero initial conditions: the cascade of
the second-order sections applied in order. -/
noncomputable def sosfilt (sos : List SOSec) (v : List ℝ) : List ℝ :=
  sos.foldl (fun acc c => biquadGo c 0 0 acc) v

/-- `scipy.signal.unit_impulse N`. -/
noncomputable def unitImpulse (N : ℕ) : List ℝ :=
  (List.range N).map fun j => if j = 0 then (1 : ℝ) else 0

/-- `deconvolve(x, y, fs, max_inv_dyn, lowpass, highpass)` from
`measurement.py` (x = reference, y = recorded).  A bandpass spec is the
`(cutoff, order, repetitions)` triple the Python code passes as a list;
`sosLP`/`sosHP` are the second-order sections the external
`scipy.signal.butter` design returns for the lowpass/highpass spec (the
unused `fs` and cutoff/order entries are exactly the data that design
consumes). -/
noncomputable def deconvolve (sosLP sosHP : List SOSec) (x y : List ℝ) (fs : ℝ)
    (maxInvDyn : Option ℝ) (lowpass highpass : Option (ℝ × ℕ × ℕ)) : List ℝ :=
  let inputLength := x.length
  let Nf := nfft inputLength
  let Xf := rfftL x Nf
  let Yf := rfftL y Nf
  let Xinv0 := Xf.map fun z => 1 / z
  let Xinv1 := match maxInvDyn with
    | some d => dynLimit d Xinv0
    | none => Xinv0
  let Xinv2 :=
    if lowpass.isSome || highpass.isSome then
      let lpImp := match lowpass with
        | some l => (sosfilt sosLP)^[l.2.2] (unitImpulse Nf)
        | none => unitImpulse Nf
      let lpFilter := rfftL lpImp lpImp.length
      let hpImp := match highpass with
        | some h => (sosfilt sosHP)^[h.2.2] (unitImpulse Nf)
        | none => unitImpulse Nf
      let hpFilter := rfftL hpImp hpImp.length
      List.zipWith (· * ·) Xinv1 (List.zipWith (· * ·) hpFilter lpFilter)
    else Xinv1
  let H := List.zipWith (· * ·) Yf Xinv2
  (irfftL H Nf).take inputLength

/-- `int(d_sweep_sec * fs)`, the sweep sample count of
`make_excitation_sweep` (Python `int()` truncation = floor for the
non-negative products that occur). -/
noncomputable def numSweepSamples (fs dSweepSec : ℝ) : ℕ :=
  (⌊dSweepSec * fs⌋).toNat

/-- `scipy.signal.chirp(t, f0, t1, f1, method='logarithmic', phi=90)`:
`cos(2π·(t1/log(f1/f0))·f0·((f1/f0)^(t/t1) - 1) + π/2)`, with scipy's
special case `cos(2π·f0·t + π/2)` when `f0 = f1`. -/
noncomputable def chirpLog (f0 f1 t1 t : ℝ) : ℝ :=
  if f0 = f1 then Real.cos (2 * π * f0 * t + π / 2)
  else
    Real.cos (2 * π * (t1 / Real.log (f1 / f0)) * f0 *
      ((f1 / f0) ^ (t / t1) - 1) + π / 2)

/-- The raw sweep of `make_excitation_sweep` before windowing:
`10^(amp_db/20) * chirp(linspace(0, d_sweep_sec, int(d_sweep_sec*fs)))`. -/
noncomputable def sweepRaw (fs dSweepSec fStart fEnd ampDb : ℝ) : List ℝ :=
  let n := numSweepSamples fs dSweepSec
  (List.range n).map fun i =>
    (10 : ℝ) ^ (ampDb / 20) * chirpLog fStart fEnd dSweepSec (linVal 0 dSweepSec n i)

/-- The windowed sweep of `make_excitation_sweep` (before silence
padding): the squared-cosine fade is written into
`window[len - fade_out_samples : len]`; `none` models the NumPy
`ValueError` when that slice does not have `fade_out_samples` entries
(i.e. when `fade_out_samples` exceeds the sweep length). -/
noncomputable def windowedSweep (fs dSweepSec fStart fEnd ampDb : ℝ)
    (fadeOutSamples : ℕ) : Option (List ℝ) :=
  let s := sweepRaw fs dSweepSec fStart fEnd ampDb
  let n := s.length
  let start := pySliceStart n ((n : ℤ) - (fadeOutSamples : ℤ))
  if n - start ≠ fadeOutSamples then none
  else some (List.zipWith (· * ·) s ((List.range n).map (windowVal n fadeOutSamples)))

/-- `make_excitation_sweep` (mono column): the windowed sweep padded with
`int(fs * 0.01)` samples of leading silence and `int(fs *
d_post_silence_sec)` samples of trailing silence.  `np.tile` then
replicates this column across the requested channels and
`prepare_audio` routes it, so the mono column is the generated signal
all later stages consume. -/
noncomputable def makeExcitationSweep (fs dSweepSec dPostSilenceSec fStart fEnd ampDb : ℝ)
    (fadeOutSamples : ℕ) : Option (List ℝ) :=
  (windowedSweep fs dSweepSec fStart fEnd ampDb fadeOutSamples).map fun s =>
    List.replicate (⌊fs * (1 / 100 : ℝ)⌋).toNat 0 ++ s ++
      List.replicate (⌊fs * dPostSilenceSec⌋).toNat 0

/-- A channel-role triple of `set_channel_layout`: zero-indexed physical
channel ids for the two ear/output roles and the feedback-loop role
(index 2); `-1` means disabled. -/
structure Chan3 where
  left : ℤ
  right : ℤ
  fb : ℤ

/-- Python `max` over the 3-element role list. -/
def max3 (c : Chan3) : ℤ := max c.left (max c.right c.fb)

/-- The role list `[c[0], c[1], c[2]]`. -/
def roleEntries (c : Chan3) : List ℤ := [c.left, c.right, c.fb]

/-- The `sweep_parameters` dict of the `Measurement` class. -/
structure SweepParams where
  sweeplengthSec : ℝ
  postSilenceSec : ℝ
  fStart : ℝ
  fEnd : ℝ
  ampDb : ℝ
  fadeOutSamples : ℕ

/-- The attribute state of a `Measurement` instance that the
sweep/routing/measurement logic reads and writes.  The sound-effect
buffers (external wav assets, never routed through the role logic) and
the `dummy_debugging` flag (constant `False`) are omitted;
`sounddevice.default.samplerate` is carried as the `samplerate` field.
2-D excitation buffers are index functions `time → channel → ℝ`. -/
structure MeasState where
  sweepParameters : SweepParams
  samplerate : ℝ
  channelLayoutInput : Chan3
  channelLayoutOutput : Chan3
  numInputChannelsUsed : ℤ
  numOutputChannelsUsed : ℤ
  feedbackLoopUsed : Bool
  sweepMono : List ℝ
  sweepHpcMono : List ℝ
  excitation : ℕ → ℕ → ℝ
  excitationHpc : ℕ → ℕ → ℝ
  recordedSweepL : List ℝ
  recordedSweepR : List ℝ
  feedbackLoop : List ℝ

/-- NumPy column index resolution on an `ncols`-column array: a negative
index counts from the end, anything out of range is an `IndexError`
(`none`). -/
def npColIdx (ncols : ℕ) (j : ℤ) : Option ℕ :=
  if 0 ≤ j ∧ j < (ncols : ℤ) then some j.toNat
  else if -(ncols : ℤ) ≤ j ∧ j < 0 then some ((ncols : ℤ) + j).toNat
  else none

/-- Overwrite column `c` of a 2-D buffer with the mono signal `v`. -/
def setCol (m : ℕ → ℕ → ℝ) (c : ℕ) (v : ℕ → ℝ) : ℕ → ℕ → ℝ :=
  fun t j => if j = c then v t else m t j

/-- The fancy-index column assignment `buf[:, cols] = v` on an
`ncols`-column buffer: each listed column is resolved NumPy-style and
overwritten with the (broadcast) mono signal; `none` on an
`IndexError`. -/
def assignCols (ncols : ℕ) (cols : List ℤ) (v : ℕ → ℝ) (m : ℕ → ℕ → ℝ) :
    Option (ℕ → ℕ → ℝ) :=
  match cols with
  | [] => some m
  | c :: rest =>
    match npColIdx ncols c with
    | none => none
    | some ci => assignCols ncols rest v (setCol m ci v)

/-- The field updates of `set_channel_layout` (lines 198–208): if either
feedback entry is negative, both are forced to `-1` and the feedback
flag cleared; the per-side channel counts are `max(layout) + 1` over the
(possibly adjusted) role lists.  `prepare_audio` is invoked afterwards
and modelled separately. -/
def setChannelLayoutFields (s : MeasState) (inCh outCh : Chan3) : MeasState :=
  let fbOff : Bool := decide (outCh.fb < 0 ∨ inCh.fb < 0)
  let inCh' := if fbOff then { inCh with fb := -1 } else inCh
  let outCh' := if fbOff then { outCh with fb := -1 } else outCh
  { s with
    channelLayoutInput := inCh'
    channelLayoutOutput := outCh'
    feedbackLoopUsed := !fbOff
    numOutputChannelsUsed := max3 outCh' + 1
    numInputChannelsUsed := max3 inCh' + 1 }

/-- `prepare_audio`: regenerate the mono sweeps from the current
parameters and sample rate, then materialise them into zero-filled
multichannel buffers, writing the sweep into the output-role columns
(all three when the feedback loop is used, otherwise only the first
two).  `none` models the NumPy errors: an invalid fade window, a
negative channel count passed to `np.zeros`, or an out-of-range column
index.  (The sound-effect resampling of the external wav assets is
omitted.) -/
noncomputable def prepareAudio (s : MeasState) : Option MeasState :=
  (makeExcitationSweep s.samplerate s.sweepParameters.sweeplengthSec
      s.sweepParameters.postSilenceSec s.sweepParameters.fStart
      s.sweepParameters.fEnd s.sweepParameters.ampDb
      s.sweepParameters.fadeOutSamples).bind fun sweepMono =>
  (makeExcitationSweep s.samplerate 2 1 20 20000 (-20) 0).bind fun sweepHpcMono =>
  let outList :=
    if s.feedbackLoopUsed then roleEntries s.channelLayoutOutput
    else [s.channelLayoutOutput.left, s.channelLayoutOutput.right]
  if 0 ≤ s.numOutputChannelsUsed then
    let ncols := s.numOutputChannelsUsed.toNat
    (assignCols ncols outList (fun t => sweepMono.getD t 0) (fun _ _ => 0)).bind fun exc =>
    (assignCols ncols outList (fun t => sweepHpcMono.getD t 0) (fun _ _ => 0)).bind fun excHpc =>
    some { s with
      sweepMono := sweepMono
      sweepHpcMono := sweepHpcMono
      excitation := exc
      excitationHpc := excHpc }
  else none

/-- `single_measurement(type)`: clear the three recording attributes,
run the hardware compatibility check (`sd.check_input_settings` /
`sd.check_output_settings`, outcome `checkOK` of the external I/O
boundary — on failure the method returns immediately), then issue the
duplex transaction and extract the per-role signals from the recorded
buffer (`recorded`/`nRows`, the external `sd.playrec` result).  A
captured feedback signal whose `abs(max())` is below `0.0001` is
replaced by `np.random.random_sample * 0.000001` (`rand` models the
external random source, values in `[0, 1)`); with the feedback loop
disabled the stored feedback is the generated mono sweep of the
measurement type. -/
noncomputable def singleMeasurement (s : MeasState) (isHpc : Bool) (checkOK : Bool)
    (recorded : ℕ → ℕ → ℝ) (nRows : ℕ) (rand : ℕ → ℝ) : Option MeasState :=
  let s1 := { s with recordedSweepL := [], recordedSweepR := [], feedbackLoop := ([] : List ℝ) }
  if !checkOK then some s1
  else
    let ncols := s.numInputChannelsUsed.toNat
    let recCol := fun (j : ℤ) =>
      (npColIdx ncols j).map fun c => (List.range nRows).map fun t => recorded t c
    (if s.channelLayoutInput.left ≥ 0 then recCol s.channelLayoutInput.left
        else some (List.replicate nRows 0)).bind fun recL =>
    (if s.channelLayoutInput.right ≥ 0 then recCol s.channelLayoutInput.right
        else some (List.replicate nRows 0)).bind fun recR =>
    (if s.feedbackLoopUsed then
        (recCol s.channelLayoutInput.fb).map fun f =>
          if |npMax f| < 1 / 10000 then
            (List.range f.length).map fun i => rand i * (1 / 1000000)
          else f
      else some (if isHpc then s.sweepHpcMono else s.sweepMono)).bind fun fb =>
    some { s1 with recordedSweepL := recL, recordedSweepR := recR, feedbackLoop := fb }

/-- `get_recordings()`. -/
def getRecordings (s : MeasState) : List ℝ × List ℝ × List ℝ :=
  (s.recordedSweepL, s.recordedSweepR, s.feedbackLoop)

/-- The attribute lookup `self.fs` in `get_irs`: no method of
`Measurement` ever assigns an `fs` attribute (the sample rate lives in
`sounddevice.default.samplerate` and is exposed via
`get_samplerate()`), so the lookup raises `AttributeError` on every
instance; modelled as `none`. -/
def fsLookup (_ : MeasState) : Option ℝ := none

/-- `get_irs(rec_l, rec_r, fb_loop, deconv_fc_hp, deconv_fc_lp)`:
unspecified arguments fall back to the stored recordings and to the
`2 * f_start` / `20000` cutoffs, then both ears are deconvolved against
the feedback signal with `lowpass=[fc_lp, 4, 2]`,
`highpass=[fc_hp, 4, 2]` at the sample rate read from `self.fs`; any
exception in the `try` block makes `get_irs` return `None`.
`sosLP`/`sosHP` are the external Butterworth designs as in
`deconvolve`. -/
noncomputable def getIrs (sosLP sosHP : List SOSec) (s : MeasState)
    (recL recR fbLoop : Option (List ℝ)) (fcHp fcLp : Option ℝ) :
    Option (List ℝ × List ℝ) :=
  let recL := recL.getD s.recordedSweepL
  let recR := recR.getD s.recordedSweepR
  let fb := fbLoop.getD s.feedbackLoop
  let fcHp := fcHp.getD (s.sweepParameters.fStart * 2)
  let fcLp := fcLp.getD 20000
  match fsLookup s with
  | none => none
  | some fs =>
    some
      (deconvolve sosLP sosHP fb recL fs none (some (fcLp, 4, 2)) (some (fcHp, 4, 2)),
       deconvolve sosLP sosHP fb recR fs none (some (fcLp, 4, 2)) (some (fcHp, 4, 2)))

/-! ## Helper lemmas -/

theorem biquadGo_length (c : SOSec) (s1 s2 : ℝ) (v : List ℝ) :
    (biquadGo c s1 s2 v).length = v.length := by
  induction v generalizing s1 s2 with
  | nil => rfl
  | cons a t ih => simp [biquadGo, ih]

theorem sosfilt_length (sos : List SOSec) (v : List ℝ) :
    (sosfilt sos v).length = v.length := by
  induction sos generalizing v with
  | nil => rfl
  | cons c rest ih =>
    simpa [sosfilt, biquadGo_length] using (ih (biquadGo c 0 0 v)).trans
      (biquadGo_length c 0 0 v)

theorem sosfilt_iterate_length (sos : List SOSec) (n : ℕ) (v : List ℝ) :
    ((sosfilt sos)^[n] v).length = v.length := by
  induction n generalizing v with
  | zero => rfl
  | succ m ih => rw [Function.iterate_succ_apply]; rw [ih, sosfilt_length]

theorem rfftL_length (v : List ℝ) (N : ℕ) : (rfftL v N).length = N / 2 + 1 := by
  rw [rfftL, List.length_map, List.length_range]

theorem irfftL_length (H : List ℂ) (N : ℕ) : (irfftL H N).length = N := by
  rw [irfftL, List.length_map, List.length_range]

theorem unitImpulse_length (N : ℕ) : (unitImpulse N).length = N := by
  simp [unitImpulse]

theorem dynLimit_length (d : ℝ) (X : List ℂ) : (dynLimit d X).length = X.length := by
  simp [dynLimit]

theorem le_nfft (L : ℕ) : L ≤ nfft L := by
  calc L ≤ 2 ^ Nat.clog 2 L := Nat.le_pow_clog (by norm_num) L
  _ ≤ 2 ^ (Nat.clog 2 L + 1) := Nat.pow_le_pow_right (by norm_num) (Nat.le_succ _)

theorem sweepRaw_length (fs dSweepSec fStart fEnd ampDb : ℝ) :
    (sweepRaw fs dSweepSec fStart fEnd ampDb).length = numSweepSamples fs dSweepSec := by
  simp [sweepRaw]

theorem foldl_min_le_init (t : List ℝ) (a : ℝ) : t.foldl min a ≤ a := by
  induction t generalizing a with
  | nil => simp
  | cons b r ih => exact le_trans (ih (min a b)) (min_le_left a b)

theorem foldl_min_le_mem (t : List ℝ) (a b : ℝ) (hb : b ∈ t) : t.foldl min a ≤ b := by
  induction t generalizing a with
  | nil => cases hb
  | cons c r ih =>
    rcases List.mem_cons.1 hb with h | h
    · subst h
      exact le_trans (foldl_min_le_init r (min a b)) (min_le_right a b)
    · exact ih (min a c) h

theorem le_foldl_min (t : List ℝ) (a c : ℝ) (ha : c ≤ a) (h : ∀ b ∈ t, c ≤ b) :
    c ≤ t.foldl min a := by
  induction t generalizing a with
  | nil => exact ha
  | cons b r ih =>
    exact ih (min a b) (le_min ha (h b (List.mem_cons_self b r)))
      fun x hx => h x (List.mem_cons_of_mem b hx)

theorem npMin_le (l : List ℝ) (a : ℝ) (ha : a ∈ l) : npMin l ≤ a := by
  match l with
  | [] => cases ha
  | b :: t =>
    rcases List.mem_cons.1 ha with h | h
    · subst h; exact foldl_min_le_init t a
    · exact foldl_min_le_mem t b a h

theorem le_npMin (l : List ℝ) (c : ℝ) (hne : l ≠ []) (h : ∀ b ∈ l, c ≤ b) :
    c ≤ npMin l := by
  match l with
  | [] => exact absurd rfl hne
  | b :: t =>
    exact le_foldl_min t b c (h b (List.mem_cons_self b t))
      fun x hx => h x (List.mem_cons_of_mem b hx)

theorem zipWith_mul_getD (a b : List ℝ) (i : ℕ) (ha : i < a.length)
    (hb : i < b.length) :
    (List.zipWith (· * ·) a b).getD i 0 = a.getD i 0 * b.getD i 0 := by
  induction a generalizing b i with
  | nil => cases ha
  | cons x t ih =>
    match b, i with
    | [], _ => cases hb
    | y :: u, 0 => simp
    | y :: u, i + 1 =>
      simpa using ih u i (by simpa using ha) (by simpa using hb)

/-! ## C10: the unregularized variant fails on recordings shorter than
its fixed 2000-sample fade window -/

/-- C10: `deconv` unconditionally assigns a 2000-sample squared-cosine
window into the tail of the truncated result, so whenever the recorded
signal `y` has fewer than 2000 samples the slice assignment has
mismatched shapes (or the transform itself is invalid) and `deconv`
fails instead of returning an impulse response. -/
theorem deconv_short_input_fails (x y : List ℝ) (h : y.length < 2000) :
    deconv x y = none := by
  simp only [deconv]
  split
  · rfl
  · split
    · rfl
    · split
      · rfl
      · rename_i hwin
        exfalso
        have hle : y.length - pySliceStart y.length ((y.length : ℤ) - (2000 : ℤ)) ≤
            y.length := Nat.sub_le _ _
        omega

/-- Witness for C10 at the concrete input `x = y = [1]`. -/
theorem deconv_short_input_fails_witness :
    ([(1 : ℝ)]).length < 2000 ∧ deconv [(1 : ℝ)] [(1 : ℝ)] = none :=
  ⟨by norm_num, deconv_short_input_fails [(1 : ℝ)] [(1 : ℝ)] (by norm_num)⟩

/-! ## C1: a failed hardware-compatibility check does not preserve the
prior recordings — they are cleared before the check runs -/

/-- Amended C1: when the pre-transaction validation fails,
`single_measurement` returns with the three recording attributes reset
to empty lists — they were cleared at the start of the attempt — so the
previously stored measurement results are lost, not preserved; all
other session state is unchanged. -/
theorem failed_measurement_clears_recordings (s : MeasState) (isHpc : Bool)
    (recorded : ℕ → ℕ → ℝ) (nRows : ℕ) (rand : ℕ → ℝ) :
    singleMeasurement s isHpc false recorded nRows rand =
      some { s with recordedSweepL := [], recordedSweepR := [], feedbackLoop := [] } := by
  rfl

/-- A session state holding a prior (non-empty) recording. -/
noncomputable def priorSession : MeasState where
  sweepParameters := ⟨3, 1.5, 100, 22000, -20, 200⟩
  samplerate := 48000
  channelLayoutInput := ⟨0, 1, -1⟩
  channelLayoutOutput := ⟨0, 1, -1⟩
  numInputChannelsUsed := 2
  numOutputChannelsUsed := 2
  feedbackLoopUsed := false
  sweepMono := []
  sweepHpcMono := []
  excitation := fun _ _ => 0
  excitationHpc := fun _ _ => 0
  recordedSweepL := [1]
  recordedSweepR := [1]
  feedbackLoop := [1]

/-- Counterexample to C1 as stated: a session with a prior recorded left
sweep `[1]` whose failed measurement attempt leaves the stored left
sweep empty, so the prior result is no longer available. -/
theorem failed_measurement_counterexample :
    priorSession.recordedSweepL = [(1 : ℝ)] ∧
    (singleMeasurement priorSession false false (fun _ _ => 0) 0
      (fun _ => 0)).map MeasState.recordedSweepL = some [] ∧
    ([] : List ℝ) ≠ [(1 : ℝ)] := by
  refine ⟨rfl, ?_, by simp⟩
  rfl

/-! ## C2: `get_irs` cannot return impulse responses — `self.fs` is
never assigned, so the bare `except` always swallows an
`AttributeError` and the method returns `None` -/

/-- C2 (code bug): for every session state and every combination of
arguments — in particular the all-defaults call that should fall back to
the last recording with `2 * f_start` / 20 kHz cutoffs — `get_irs`
returns `None`: the `deconvolve` calls read `self.fs`, an attribute no
method of `Measurement` ever assigns, so the `try` block raises
`AttributeError` and the bare `except` returns nothing. -/
theorem getIrs_always_none (sosLP sosHP : List SOSec) (s : MeasState)
    (recL recR fbLoop : Option (List ℝ)) (fcHp fcLp : Option ℝ) :
    getIrs sosLP sosHP s recL recR fbLoop fcHp fcLp = none := by
  rfl

/-! ## C9: channel-layout invariants of `set_channel_layout` -/

theorem max3_mem (c : Chan3) : max3 c ∈ roleEntries c := by
  unfold max3 roleEntries
  rcases max_choice c.left (max c.right c.fb) with h | h <;> rw [h]
  · simp
  · rcases max_choice c.right c.fb with h2 | h2 <;> rw [h2] <;> simp

theorem le_max3 (c : Chan3) (e : ℤ) (he : e ∈ roleEntries c) : e ≤ max3 c := by
  simp only [roleEntries, List.mem_cons, List.not_mem_nil, or_false] at he
  unfold max3
  rcases he with h | h | h <;> subst h
  · exact le_max_left _ _
  · exact le_trans (le_max_left _ _) (le_max_right _ _)
  · exact le_trans (le_max_right _ _) (le_max_right _ _)

theorem setCLF_output (s : MeasState) (inCh outCh : Chan3) :
    (setChannelLayoutFields s inCh outCh).channelLayoutOutput =
      if outCh.fb < 0 ∨ inCh.fb < 0 then { outCh with fb := -1 } else outCh := by
  simp [setChannelLayoutFields]

theorem setCLF_numOut (s : MeasState) (inCh outCh : Chan3) :
    (setChannelLayoutFields s inCh outCh).numOutputChannelsUsed =
      max3 (setChannelLayoutFields s inCh outCh).channelLayoutOutput + 1 := by
  simp [setChannelLayoutFields]

/-- C9: after `set_channel_layout`, if either side's feedback-role entry
is negative then both stored layouts have `-1` at index 2 and the
feedback-loop flag is cleared; and on each side the stored channel count
is `1 +` the maximum non-negative role index of that side's stored
layout (whenever the side has an enabled role at all, so that maximum
exists). -/
theorem setChannelLayout_invariants (s : MeasState) (inCh outCh : Chan3) :
    ((inCh.fb < 0 ∨ outCh.fb < 0) →
      (setChannelLayoutFields s inCh outCh).channelLayoutInput.fb = -1 ∧
      (setChannelLayoutFields s inCh outCh).channelLayoutOutput.fb = -1 ∧
      (setChannelLayoutFields s inCh outCh).feedbackLoopUsed = false) ∧
    ((∃ e ∈ roleEntries (setChannelLayoutFields s inCh outCh).channelLayoutOutput,
        0 ≤ e) →
      (setChannelLayoutFields s inCh outCh).numOutputChannelsUsed =
        1 + max3 (setChannelLayoutFields s inCh outCh).channelLayoutOutput ∧
      max3 (setChannelLayoutFields s inCh outCh).channelLayoutOutput ∈
        roleEntries (setChannelLayoutFields s inCh outCh).channelLayoutOutput ∧
      0 ≤ max3 (setChannelLayoutFields s inCh outCh).channelLayoutOutput ∧
      ∀ e ∈ roleEntries (setChannelLayoutFields s inCh outCh).channelLayoutOutput,
        e ≤ max3 (setChannelLayoutFields s inCh outCh).channelLayoutOutput) ∧
    ((∃ e ∈ roleEntries (setChannelLayoutFields s inCh outCh).channelLayoutInput,
        0 ≤ e) →
      (setChannelLayoutFields s inCh outCh).numInputChannelsUsed =
        1 + max3 (setChannelLayoutFields s inCh outCh).channelLayoutInput ∧
      max3 (setChannelLayoutFields s inCh outCh).channelLayoutInput ∈
        roleEntries (setChannelLayoutFields s inCh outCh).channelLayoutInput ∧
      0 ≤ max3 (setChannelLayoutFields s inCh outCh).channelLayoutInput ∧
      ∀ e ∈ roleEntries (setChannelLayoutFields s inCh outCh).channelLayoutInput,
        e ≤ max3 (setChannelLayoutFields s inCh outCh).channelLayoutInput) := by
  refine ⟨?_, ?_, ?_⟩
  · intro h
    have hd : decide (outCh.fb < 0 ∨ inCh.fb < 0) = true := by
      simp only [decide_eq_true_eq]
      tauto
    simp [setChannelLayoutFields, hd]
  · rintro ⟨e, he, hpos⟩
    refine ⟨?_, max3_mem _, le_trans hpos (le_max3 _ e he), fun f hf => le_max3 _ f hf⟩
    simp only [setChannelLayoutFields]
    omega
  · rintro ⟨e, he, hpos⟩
    refine ⟨?_, max3_mem _, le_trans hpos (le_max3 _ e he), fun f hf => le_max3 _ f hf⟩
    simp only [setChannelLayoutFields]
    omega

/-- Witness for C9 at the default layout `in = out = [0, 1, -1]`. -/
theorem setChannelLayout_invariants_witness :
    (setChannelLayoutFields priorSession ⟨0, 1, -1⟩ ⟨0, 1, -1⟩).channelLayoutInput.fb = -1 ∧
    (setChannelLayoutFields priorSession ⟨0, 1, -1⟩ ⟨0, 1, -1⟩).feedbackLoopUsed = false ∧
    (setChannelLayoutFields priorSession ⟨0, 1, -1⟩ ⟨0, 1, -1⟩).numOutputChannelsUsed =
      1 + max3 (setChannelLayoutFields priorSession ⟨0, 1, -1⟩ ⟨0, 1, -1⟩).channelLayoutOutput := by
  have h := setChannelLayout_invariants priorSession ⟨0, 1, -1⟩ ⟨0, 1, -1⟩
  refine ⟨(h.1 (by norm_num)).1, (h.1 (by norm_num)).2.2, (h.2.1 ⟨0, ?_, by norm_num⟩).1⟩
  simp [setChannelLayoutFields, roleEntries]

/-! ## C8: transform length and truncation in `deconvolve` -/

/-- C8: for a reference signal of length `L ≥ 1`, `deconvolve` uses the
transform length `N = 2^(⌈log2 L⌉ + 1)` — the next power of two at
least as large as `L`, doubled once — computes both half spectra at that
length (each has `N/2 + 1` bins), and returns an impulse response of
exactly the original pre-padding length `L`. -/
theorem deconvolve_padding_truncation (sosLP sosHP : List SOSec) (x y : List ℝ)
    (fs : ℝ) (maxInvDyn : Option ℝ) (lowpass highpass : Option (ℝ × ℕ × ℕ))
    (h : 1 ≤ x.length) :
    nfft x.length = 2 ^ (Nat.clog 2 x.length + 1) ∧
    x.length ≤ 2 ^ Nat.clog 2 x.length ∧
    nfft x.length = 2 * 2 ^ Nat.clog 2 x.length ∧
    (rfftL x (nfft x.length)).length = nfft x.length / 2 + 1 ∧
    (rfftL y (nfft x.length)).length = nfft x.length / 2 + 1 ∧
    (deconvolve sosLP sosHP x y fs maxInvDyn lowpass highpass).length = x.length := by
  refine ⟨rfl, Nat.le_pow_clog (by norm_num) _, ?_, rfftL_length x _, rfftL_length y _, ?_⟩
  · rw [nfft, pow_succ]
    ring
  · simp only [deconvolve]
    rw [List.length_take, irfftL_length]
    exact Nat.min_eq_left (le_nfft x.length)

/-- Witness for C8 at a concrete reference/recording pair. -/
theorem deconvolve_padding_truncation_witness :
    1 ≤ ([(1 : ℝ), 2, 3]).length ∧
    nfft ([(1 : ℝ), 2, 3]).length = 8 ∧
    (deconvolve [] [] [(1 : ℝ), 2, 3] [(4 : ℝ), 5] 48000 none none none).length = 3 := by
  have h := deconvolve_padding_truncation [] [] [(1 : ℝ), 2, 3] [(4 : ℝ), 5] 48000
    none none none (by norm_num)
  exact ⟨by norm_num, by rw [h.1]; norm_num [Nat.clog], h.2.2.2.2.2⟩

/-! ## C3: silence invariant of the generated excitation buffer -/

theorem npColIdx_some (ncols : ℕ) (e : ℤ) (ci : ℕ) (h : npColIdx ncols e = some ci) :
    (0 ≤ e ∧ (ci : ℤ) = e) ∨ (e < 0 ∧ (ci : ℤ) = (ncols : ℤ) + e ∧ 1 ≤ ncols) := by
  unfold npColIdx at h
  split_ifs at h with h1 h2
  · left
    obtain ⟨rfl⟩ : e.toNat = ci := by exact Option.some_injective _ h
    omega
  · right
    obtain ⟨rfl⟩ : ((ncols : ℤ) + e).toNat = ci := by exact Option.some_injective _ h
    omega

theorem assignCols_unassigned (ncols : ℕ) (cols : List ℤ) (v : ℕ → ℝ)
    (m m' : ℕ → ℕ → ℝ) (h : assignCols ncols cols v m = some m') (c : ℕ)
    (hc : ∀ e ∈ cols, npColIdx ncols e ≠ some c) : ∀ t, m' t c = m t c := by
  induction cols generalizing m with
  | nil =>
    obtain rfl : m = m' := Option.some_injective _ (by simpa [assignCols] using h)
    intro t; rfl
  | cons e rest ih =>
    simp only [assignCols] at h
    cases hidx : npColIdx ncols e with
    | none => rw [hidx] at h; cases h
    | some ci =>
      rw [hidx] at h
      have h' : assignCols ncols rest v (setCol m ci v) = some m' := h
      intro t
      rw [ih (setCol m ci v) h' fun f hf => hc f (List.mem_cons_of_mem e hf)]
      have hne : ci ≠ c := fun hcic => hc e (List.mem_cons_self e rest) (hcic ▸ hidx)
      simp only [setCol]
      rw [if_neg fun hcc : c = ci => hne hcc.symm]

/-- C3: for every channel layout accepted by `set_channel_layout` (role
entries in `{-1} ∪ ℕ`, including layouts with the left or right output
role disabled) whose derived buffers `prepare_audio` builds
successfully, every column of the generated excitation buffers (normal
and quick-check) that is not designated by an output role index `≥ 0`
is exactly zero at every sample. -/
theorem excitation_silence_invariant (s : MeasState) (inCh outCh : Chan3)
    (s2 : MeasState) (hrange : ∀ e ∈ roleEntries outCh, -1 ≤ e)
    (hprep : prepareAudio (setChannelLayoutFields s inCh outCh) = some s2) (c : ℕ)
    (hc : ∀ e ∈ roleEntries (setChannelLayoutFields s inCh outCh).channelLayoutOutput,
      0 ≤ e → e ≠ (c : ℤ)) :
    ∀ t, s2.excitation t c = 0 ∧ s2.excitationHpc t c = 0 := by
  have hall : ∀ f ∈ roleEntries (setChannelLayoutFields s inCh outCh).channelLayoutOutput,
      -1 ≤ f := by
    intro f hf
    rw [setCLF_output] at hf
    split_ifs at hf <;>
      simp only [roleEntries, List.mem_cons, List.not_mem_nil, or_false] at hf <;>
      rcases hf with h | h | h <;> subst h <;>
      first
        | exact le_refl (-1 : ℤ)
        | exact hrange _ (by simp [roleEntries])
  have hnum : (setChannelLayoutFields s inCh outCh).numOutputChannelsUsed =
      max3 (setChannelLayoutFields s inCh outCh).channelLayoutOutput + 1 :=
    setCLF_numOut s inCh outCh
  set s1 := setChannelLayoutFields s inCh outCh with hs1
  have hnores3 : ∀ e ∈ roleEntries s1.channelLayoutOutput,
      npColIdx s1.numOutputChannelsUsed.toNat e ≠ some c := by
    intro e hmem hres
    rcases npColIdx_some _ _ _ hres with ⟨hpos, hci⟩ | ⟨hneg, hci, h1n⟩
    · exact hc e hmem hpos hci.symm
    -- a disabled (-1) entry resolves to the last column, which carries the
    -- maximal role index and is therefore designated
    · have hmx := le_max3 s1.channelLayoutOutput e hmem
      rw [hnum] at hci h1n
      have hmax : (c : ℤ) = max3 s1.channelLayoutOutput := by
        have := hall e hmem
        omega
      refine hc (max3 s1.channelLayoutOutput) (max3_mem _) (by omega) hmax.symm
  have hnores2 : ∀ e ∈ [s1.channelLayoutOutput.left, s1.channelLayoutOutput.right],
      npColIdx s1.numOutputChannelsUsed.toNat e ≠ some c := by
    intro e he
    refine hnores3 e ?_
    rcases List.mem_cons.1 he with h | h
    · simp [roleEntries, h]
    · simp only [List.mem_cons, List.not_mem_nil, or_false] at h
      simp [roleEntries, h]
  rw [prepareAudio] at hprep
  simp only [Option.bind_eq_some] at hprep
  obtain ⟨sm, hsm, shm, hshm, hrest⟩ := hprep
  split_ifs at hrest with hnn hfb
  · simp only [Option.bind_eq_some] at hrest
    obtain ⟨exc, hexc, excHpc, hexcHpc, hsome⟩ := hrest
    intro t
    have h1 := assignCols_unassigned _ _ _ _ _ hexc c hnores3 t
    have h2 := assignCols_unassigned _ _ _ _ _ hexcHpc c hnores3 t
    injection hsome with hinj
    subst hinj
    exact ⟨h1, h2⟩
  · simp only [Option.bind_eq_some] at hrest
    obtain ⟨exc, hexc, excHpc, hexcHpc, hsome⟩ := hrest
    intro t
    have h1 := assignCols_unassigned _ _ _ _ _ hexc c hnores2 t
    have h2 := assignCols_unassigned _ _ _ _ _ hexcHpc c hnores2 t
    injection hsome with hinj
    subst hinj
    exact ⟨h1, h2⟩

theorem pySliceStart_of_le (n fade : ℕ) (h : fade ≤ n) :
    pySliceStart n ((n : ℤ) - (fade : ℤ)) = n - fade := by
  rw [pySliceStart, if_neg (by omega : ¬ ((n : ℤ) - (fade : ℤ) < 0))]
  have h3 : ((n : ℤ) - (fade : ℤ)).toNat = n - fade := by omega
  rw [h3, Nat.min_eq_left (Nat.sub_le n fade)]

theorem windowedSweep_eq_some (fs T f0 f1 a : ℝ) (fade : ℕ)
    (h : fade ≤ (sweepRaw fs T f0 f1 a).length) :
    windowedSweep fs T f0 f1 a fade =
      some (List.zipWith (· * ·) (sweepRaw fs T f0 f1 a)
        ((List.range (sweepRaw fs T f0 f1 a).length).map
          (windowVal (sweepRaw fs T f0 f1 a).length fade))) := by
  rw [windowedSweep]
  simp only [pySliceStart_of_le _ _ h]
  rw [if_neg (by omega : ¬ ((sweepRaw fs T f0 f1 a).length -
    ((sweepRaw fs T f0 f1 a).length - fade) ≠ fade))]

/-- A minimal session state with cheap sweep parameters, used to
instantiate the session-level theorems on concrete inputs. -/
noncomputable def tinySession : MeasState where
  sweepParameters := ⟨1, 0, 1, 2, 0, 0⟩
  samplerate := 4
  channelLayoutInput := ⟨0, 1, -1⟩
  channelLayoutOutput := ⟨0, 1, -1⟩
  numInputChannelsUsed := 2
  numOutputChannelsUsed := 2
  feedbackLoopUsed := false
  sweepMono := []
  sweepHpcMono := []
  excitation := fun _ _ => 0
  excitationHpc := fun _ _ => 0
  recordedSweepL := []
  recordedSweepR := []
  feedbackLoop := []

/-- Witness for C3 at the layout `in = [0, 1, -1]`, `out = [0, 2, -1]`:
output column 1 is not designated by any enabled role and stays zero. -/
theorem excitation_silence_invariant_witness :
    (prepareAudio (setChannelLayoutFields tinySession ⟨0, 1, -1⟩ ⟨0, 2, -1⟩)).isSome = true ∧
    ((prepareAudio (setChannelLayoutFields tinySession ⟨0, 1, -1⟩ ⟨0, 2, -1⟩)).getD
      tinySession).excitation 0 1 = 0 ∧
    ((prepareAudio (setChannelLayoutFields tinySession ⟨0, 1, -1⟩ ⟨0, 2, -1⟩)).getD
      tinySession).excitationHpc 0 1 = 0 := by
  have hs : (prepareAudio (setChannelLayoutFields tinySession ⟨0, 1, -1⟩ ⟨0, 2, -1⟩)).isSome := by
    rw [prepareAudio]
    simp only [tinySession, setChannelLayoutFields]
    rw [makeExcitationSweep, makeExcitationSweep,
      windowedSweep_eq_some _ _ _ _ _ _ (Nat.zero_le _),
      windowedSweep_eq_some _ _ _ _ _ _ (Nat.zero_le _)]
    simp only [Option.map_some', Option.some_bind]
    norm_num [assignCols, npColIdx, max3, roleEntries]
  have hprep : prepareAudio (setChannelLayoutFields tinySession ⟨0, 1, -1⟩ ⟨0, 2, -1⟩) =
      some ((prepareAudio (setChannelLayoutFields tinySession ⟨0, 1, -1⟩ ⟨0, 2, -1⟩)).get hs) :=
    (Option.some_get hs).symm
  have happ := excitation_silence_invariant tinySession ⟨0, 1, -1⟩ ⟨0, 2, -1⟩
    ((prepareAudio (setChannelLayoutFields tinySession ⟨0, 1, -1⟩ ⟨0, 2, -1⟩)).get hs)
    (by decide) hprep 1
    (by
      intro e he hpos
      simp only [setChannelLayoutFields, tinySession, roleEntries] at he
      norm_num at he ⊢
      rcases he with h | h | h <;> omega)
  refine ⟨hs, ?_, ?_⟩ <;> rw [hprep] <;> simp only [Option.getD_some]
  · exact (happ 0).1
  · exact (happ 0).2

/-! ## C7: feedback substitution when the feedback role is disabled -/

theorem prepareAudio_fields (s0 s : MeasState) (h : prepareAudio s0 = some s) :
    s.feedbackLoopUsed = s0.feedbackLoopUsed ∧
    s.channelLayoutInput = s0.channelLayoutInput ∧
    s.numInputChannelsUsed = s0.numInputChannelsUsed ∧
    s.samplerate = s0.samplerate ∧
    makeExcitationSweep s0.samplerate s0.sweepParameters.sweeplengthSec
      s0.sweepParameters.postSilenceSec s0.sweepParameters.fStart s0.sweepParameters.fEnd
      s0.sweepParameters.ampDb s0.sweepParameters.fadeOutSamples = some s.sweepMono ∧
    makeExcitationSweep s0.samplerate 2 1 20 20000 (-20) 0 = some s.sweepHpcMono := by
  rw [prepareAudio] at h
  simp only [Option.bind_eq_some] at h
  obtain ⟨sm, hsm, shm, hshm, hrest⟩ := h
  split_ifs at hrest with hnn hfb <;>
    simp only [Option.bind_eq_some] at hrest <;>
    obtain ⟨exc, hexc, excHpc, hexcHpc, hsome⟩ := hrest <;>
    injection hsome with hinj <;>
    subst hinj <;>
    exact ⟨rfl, rfl, rfl, rfl, hsm, hshm⟩

/-- C7: if the feedback role is disabled, a successful
`single_measurement` stores as the feedback entry of `get_recordings`
the originally generated mono excitation sweep of the measurement type
(the `make_excitation_sweep` output for the session's parameters,
including its silence padding), not a zero or garbage buffer. -/
theorem feedback_substitution (s0 s s' : MeasState) (isHpc : Bool)
    (recorded : ℕ → ℕ → ℝ) (nRows : ℕ) (rand : ℕ → ℝ)
    (hprep : prepareAudio s0 = some s)
    (hfb : s.feedbackLoopUsed = false)
    (hmeas : singleMeasurement s isHpc true recorded nRows rand = some s') :
    some (getRecordings s').2.2 =
      (if isHpc then makeExcitationSweep s0.samplerate 2 1 20 20000 (-20) 0
       else makeExcitationSweep s0.samplerate s0.sweepParameters.sweeplengthSec
         s0.sweepParameters.postSilenceSec s0.sweepParameters.fStart
         s0.sweepParameters.fEnd s0.sweepParameters.ampDb
         s0.sweepParameters.fadeOutSamples) := by
  obtain ⟨-, -, -, -, hsm, hshm⟩ := prepareAudio_fields s0 s hprep
  rw [singleMeasurement] at hmeas
  rw [if_neg (by norm_num : ¬ (!true : Bool) = true)] at hmeas
  simp only [hfb, Bool.false_eq_true, if_false, Option.bind_eq_some, Option.some_bind] at hmeas
  obtain ⟨recL, hrecL, recR, hrecR, hsome⟩ := hmeas
  injection hsome with hinj
  subst hinj
  cases isHpc with
  | false => simpa [getRecordings] using hsm.symm
  | true => simpa [getRecordings] using hshm.symm

/-- Witness for C7: the tiny session (feedback disabled), a successful
measurement, and the stored feedback equal to the generated sweep. -/
theorem feedback_substitution_witness :
    prepareAudio tinySession = some ((prepareAudio tinySession).getD tinySession) ∧
    singleMeasurement ((prepareAudio tinySession).getD tinySession) false true
      (fun _ _ => 0) 0 (fun _ => 0) =
      some ((singleMeasurement ((prepareAudio tinySession).getD tinySession) false true
        (fun _ _ => 0) 0 (fun _ => 0)).getD tinySession) ∧
    some ((getRecordings ((singleMeasurement ((prepareAudio tinySession).getD tinySession)
        false true (fun _ _ => 0) 0 (fun _ => 0)).getD tinySession)).2.2) =
      makeExcitationSweep 4 1 0 1 2 0 0 := by
  have hs : (prepareAudio tinySession).isSome := by
    rw [prepareAudio]
    simp only [tinySession]
    rw [makeExcitationSweep, makeExcitationSweep,
      windowedSweep_eq_some _ _ _ _ _ _ (Nat.zero_le _),
      windowedSweep_eq_some _ _ _ _ _ _ (Nat.zero_le _)]
    simp only [Option.map_some', Option.some_bind]
    norm_num [assignCols, npColIdx, max3, roleEntries]
  have hprep : prepareAudio tinySession = some ((prepareAudio tinySession).getD tinySession) := by
    rw [← Option.some_get hs, Option.getD_some]
  obtain ⟨hfb, hlay, hnum, hsr, hsm, hshm⟩ :=
    prepareAudio_fields tinySession _ hprep
  have hfb' : ((prepareAudio tinySession).getD tinySession).feedbackLoopUsed = false := hfb
  have hmeasSome : (singleMeasurement ((prepareAudio tinySession).getD tinySession) false true
      (fun _ _ => 0) 0 (fun _ => 0)).isSome := by
    rw [singleMeasurement]
    rw [if_neg (by norm_num : ¬ (!true : Bool) = true)]
    simp only [hfb', Bool.false_eq_true, if_false, hlay, hnum]
    simp only [tinySession]
    norm_num [npColIdx]
  have hmeas : singleMeasurement ((prepareAudio tinySession).getD tinySession) false true
      (fun _ _ => 0) 0 (fun _ => 0) =
      some ((singleMeasurement ((prepareAudio tinySession).getD tinySession) false true
        (fun _ _ => 0) 0 (fun _ => 0)).getD tinySession) := by
    rw [← Option.some_get hmeasSome, Option.getD_some]
  refine ⟨hprep, hmeas, ?_⟩
  have h := feedback_substitution tinySession _ _ false (fun _ _ => 0) 0 (fun _ => 0)
    hprep hfb' hmeas
  rw [if_neg (by norm_num : ¬ (false : Bool) = true)] at h
  simpa [tinySession] using h

/-! ## C4: the near-silence test on the captured feedback signal -/

/-- The session of the C4 instance: feedback loop enabled on input
channel 2 of three. -/
noncomputable def fbSession : MeasState where
  sweepParameters := ⟨1, 0, 1, 2, 0, 0⟩
  samplerate := 4
  channelLayoutInput := ⟨0, 1, 2⟩
  channelLayoutOutput := ⟨0, 1, 2⟩
  numInputChannelsUsed := 3
  numOutputChannelsUsed := 3
  feedbackLoopUsed := true
  sweepMono := []
  sweepHpcMono := []
  excitation := fun _ _ => 0
  excitationHpc := fun _ _ => 0
  recordedSweepL := []
  recordedSweepR := []
  feedbackLoop := []

/-- The recorded buffer of the C4 counterexample: feedback column 2
carries `[-1, 0]` — peak magnitude 1, but a signed maximum of 0. -/
noncomputable def cexRecording : ℕ → ℕ → ℝ := fun t c =>
  if c = 2 ∧ t = 0 then -1 else 0

/-- Counterexample to C4 as stated: the captured feedback signal
`[-1, 0]` has peak magnitude `1`, far above the `0.0001` threshold, so
by the claim it should be stored unchanged; but the code tests
`abs(feedback.max()) = |0| < 0.0001` and replaces it by noise, storing
`[0, 0] ≠ [-1, 0]`. -/
theorem feedback_threshold_counterexample :
    (List.range 2).map (fun t => cexRecording t 2) = [(-1 : ℝ), 0] ∧
    npMax (([(-1 : ℝ), 0]).map (fun r => |r|)) = 1 ∧
    ¬ ((1 : ℝ) < 1 / 10000) ∧
    (singleMeasurement fbSession false true cexRecording 2 (fun _ => 0)).map
      MeasState.feedbackLoop = some [0, 0] ∧
    some [(0 : ℝ), 0] ≠ some [(-1 : ℝ), 0] := by
  have hcol2 : (List.range 2).map (fun t => cexRecording t 2) = [(-1 : ℝ), 0] := by
    simp [cexRecording, List.range_succ]
  have hmax0 : npMax [(-1 : ℝ), 0] = 0 := by
    show List.foldl max (-1 : ℝ) [0] = 0
    rw [List.foldl_cons, List.foldl_nil, max_eq_right (by norm_num : (-1 : ℝ) ≤ 0)]
  refine ⟨hcol2, ?_, by norm_num, ?_, by simp⟩
  · have habs : (([(-1 : ℝ), 0]).map fun r => |r|) = [1, 0] := by norm_num
    rw [habs]
    show List.foldl max (1 : ℝ) [0] = 1
    rw [List.foldl_cons, List.foldl_nil, max_eq_left (by norm_num : (0 : ℝ) ≤ 1)]
  · rw [singleMeasurement]
    rw [if_neg (by norm_num : ¬ (!true : Bool) = true)]
    simp only [fbSession]
    norm_num [npColIdx, show ((2 : ℤ)).toNat = 2 from rfl]
    rw [hcol2, hmax0]
    rw [if_pos (by norm_num : |(0 : ℝ)| < 1 / 10000)]
    rfl

/-- Amended C4: with the feedback loop enabled, the captured feedback
signal is replaced by low-amplitude random noise if and only if the
absolute value of its **signed maximum** sample (`abs(feedback.max())`,
not the peak magnitude) is below the fixed threshold `0.0001`;
otherwise it is stored unchanged. -/
theorem feedback_threshold (s s' : MeasState) (isHpc : Bool)
    (recorded : ℕ → ℕ → ℝ) (nRows : ℕ) (rand : ℕ → ℝ) (ci : ℕ)
    (hfb : s.feedbackLoopUsed = true)
    (hidx : npColIdx s.numInputChannelsUsed.toNat s.channelLayoutInput.fb = some ci)
    (hmeas : singleMeasurement s isHpc true recorded nRows rand = some s') :
    (|npMax ((List.range nRows).map fun t => recorded t ci)| < 1 / 10000 →
      s'.feedbackLoop = (List.range nRows).map fun i => rand i * (1 / 1000000)) ∧
    (¬ (|npMax ((List.range nRows).map fun t => recorded t ci)| < 1 / 10000) →
      s'.feedbackLoop = (List.range nRows).map fun t => recorded t ci) := by
  rw [singleMeasurement] at hmeas
  rw [if_neg (by norm_num : ¬ (!true : Bool) = true)] at hmeas
  simp only [hfb, if_true, hidx, Option.map_some', Option.bind_eq_some,
    Option.some_bind] at hmeas
  obtain ⟨recL, hrecL, recR, hrecR, hsome⟩ := hmeas
  injection hsome with hinj
  subst hinj
  constructor
  · intro hlt
    show (if _ then _ else _) = _
    rw [if_pos hlt]
    simp only [List.length_map, List.length_range]
  · intro hge
    show (if _ then _ else _) = _
    rw [if_neg hge]

/-- Witness for the amended C4 at the concrete near-silent-maximum
recording: the stored feedback is the noise signal. -/
theorem feedback_threshold_witness :
    fbSession.feedbackLoopUsed = true ∧
    npColIdx fbSession.numInputChannelsUsed.toNat fbSession.channelLayoutInput.fb = some 2 ∧
    ((singleMeasurement fbSession false true cexRecording 2 (fun _ => 0)).getD
      fbSession).feedbackLoop = (List.range 2).map fun i => (fun _ => (0 : ℝ)) i * (1 / 1000000) := by
  have hsome : (singleMeasurement fbSession false true cexRecording 2 (fun _ => 0)).isSome := by
    rw [singleMeasurement]
    rw [if_neg (by norm_num : ¬ (!true : Bool) = true)]
    simp only [fbSession, npColIdx]
    norm_num
  have hmeas : singleMeasurement fbSession false true cexRecording 2 (fun _ => 0) =
      some ((singleMeasurement fbSession false true cexRecording 2 (fun _ => 0)).getD
        fbSession) := by
    rw [← Option.some_get hsome, Option.getD_some]
  have hidx : npColIdx fbSession.numInputChannelsUsed.toNat fbSession.channelLayoutInput.fb =
      some 2 := by
    simp only [fbSession]
    norm_num [npColIdx, show ((2 : ℤ)).toNat = 2 from rfl]
  have h := feedback_threshold fbSession _ false cexRecording 2 (fun _ => 0) 2
    rfl hidx hmeas
  have hmax : npMax ((List.range 2).map fun t => cexRecording t 2) = 0 := by
    have h2 : (List.range 2).map (fun t => cexRecording t 2) = [(-1 : ℝ), 0] := by
      simp [cexRecording, List.range_succ]
    rw [h2]
    show List.foldl max (-1 : ℝ) [0] = 0
    rw [List.foldl_cons, List.foldl_nil, max_eq_right (by norm_num : (-1 : ℝ) ≤ 0)]
  refine ⟨rfl, hidx, ?_⟩
  have := h.1 (by rw [hmax]; norm_num)
  rw [hmeas]
  simpa using this

/-! ## C6: the squared-cosine fade-out window of the generated sweep -/

theorem getD_map_range (n i : ℕ) (g : ℕ → ℝ) (h : i < n) :
    ((List.range n).map g).getD i 0 = g i := by
  rw [List.getD_eq_getElem?_getD, List.getElem?_map, List.getElem?_range h]
  rfl

theorem windowVal_of_lt (len fade i : ℕ) (h : i < len - fade) :
    windowVal len fade i = 1 := if_pos h

theorem windowVal_tail (len fade j : ℕ) (hn : fade ≤ len) :
    windowVal len fade (len - fade + j) = fadeVal fade (len - fade + j - (len - fade)) := by
  rw [windowVal, if_neg (by omega)]

theorem fadeVal_eq (fade j : ℕ) (h2 : 2 ≤ fade) :
    fadeVal fade j = Real.cos ((j : ℝ) / ((fade : ℝ) - 1) * (π / 2)) ^ 2 := by
  rw [fadeVal, linVal, if_neg (by omega)]
  congr 2
  ring

theorem fadeVal_arg_nonneg (fade j : ℕ) (h2 : 2 ≤ fade) :
    0 ≤ (j : ℝ) / ((fade : ℝ) - 1) * (π / 2) := by
  have hd : (0 : ℝ) < (fade : ℝ) - 1 := by
    have : (2 : ℝ) ≤ (fade : ℝ) := by exact_mod_cast h2
    linarith
  have hpi := Real.pi_pos
  positivity

theorem fadeVal_arg_le (fade j : ℕ) (h2 : 2 ≤ fade) (hj : j < fade) :
    (j : ℝ) / ((fade : ℝ) - 1) * (π / 2) ≤ π / 2 := by
  have hd : (0 : ℝ) < (fade : ℝ) - 1 := by
    have : (2 : ℝ) ≤ (fade : ℝ) := by exact_mod_cast h2
    linarith
  have hj' : (j : ℝ) ≤ (fade : ℝ) - 1 := by
    have : (j : ℝ) + 1 ≤ (fade : ℝ) := by exact_mod_cast hj
    linarith
  have hr : (j : ℝ) / ((fade : ℝ) - 1) ≤ 1 := (div_le_one hd).2 hj'
  have hpi : (0 : ℝ) ≤ π / 2 := by positivity
  calc (j : ℝ) / ((fade : ℝ) - 1) * (π / 2) ≤ 1 * (π / 2) :=
        mul_le_mul_of_nonneg_right hr hpi
  _ = π / 2 := one_mul _

theorem fadeVal_nonincreasing (fade j k : ℕ) (h2 : 2 ≤ fade) (hjk : j ≤ k)
    (hk : k < fade) : fadeVal fade k ≤ fadeVal fade j := by
  rw [fadeVal_eq fade j h2, fadeVal_eq fade k h2]
  have hd : (0 : ℝ) < (fade : ℝ) - 1 := by
    have : (2 : ℝ) ≤ (fade : ℝ) := by exact_mod_cast h2
    linarith
  have hpi : (0 : ℝ) ≤ π / 2 := by positivity
  have harg : (j : ℝ) / ((fade : ℝ) - 1) * (π / 2) ≤ (k : ℝ) / ((fade : ℝ) - 1) * (π / 2) := by
    have hjk' : (j : ℝ) ≤ (k : ℝ) := by exact_mod_cast hjk
    exact mul_le_mul_of_nonneg_right ((div_le_div_right hd).2 hjk') hpi
  have h0j := fadeVal_arg_nonneg fade j h2
  have h0k := fadeVal_arg_nonneg fade k h2
  have hkle := fadeVal_arg_le fade k h2 hk
  have hcos : Real.cos ((k : ℝ) / ((fade : ℝ) - 1) * (π / 2)) ≤
      Real.cos ((j : ℝ) / ((fade : ℝ) - 1) * (π / 2)) := by
    refine Real.cos_le_cos_of_nonneg_of_le_pi h0j ?_ harg
    have hpi2 : π / 2 ≤ π := by linarith [Real.pi_pos]
    linarith
  have hnn : 0 ≤ Real.cos ((k : ℝ) / ((fade : ℝ) - 1) * (π / 2)) := by
    refine Real.cos_nonneg_of_mem_Icc ⟨?_, hkle⟩
    linarith
  exact pow_le_pow_left hnn hcos 2

theorem fadeVal_last (fade : ℕ) (h2 : 2 ≤ fade) : fadeVal fade (fade - 1) = 0 := by
  rw [fadeVal_eq fade (fade - 1) h2]
  have hd : ((fade : ℝ) - 1) ≠ 0 := by
    have : (2 : ℝ) ≤ (fade : ℝ) := by exact_mod_cast h2
    intro h
    linarith
  have hcast : ((fade - 1 : ℕ) : ℝ) = (fade : ℝ) - 1 := by
    have h1 : 1 ≤ fade := by omega
    push_cast [Nat.cast_sub h1]
    ring
  rw [hcast, div_self hd, one_mul, Real.cos_pi_div_two]
  norm_num

/-- Amended C6: for every generated sweep whose `fadeout_samples` is at
least 2 (and at most the sweep length, so that the window assignment is
well formed), the fade-out window equals 1 everywhere before the last
`fadeout_samples` samples, follows `cos(t*π/2)^2` for `t` linearly
spaced from 0 to 1 over that tail, is monotonically non-increasing over
the fade region, and the last sample of the windowed sweep before
silence padding is exactly 0.  (For `fadeout_samples ∈ {0, 1}` the
window degenerates to all ones and the zero-ending guarantee fails —
see the counterexample.) -/
theorem sweep_fade_window (fs T f0 f1 ampDb : ℝ) (fade : ℕ) (h2 : 2 ≤ fade)
    (hn : fade ≤ (sweepRaw fs T f0 f1 ampDb).length) :
    (windowedSweep fs T f0 f1 ampDb fade).isSome = true ∧
    (∀ i < (sweepRaw fs T f0 f1 ampDb).length - fade,
      windowVal (sweepRaw fs T f0 f1 ampDb).length fade i = 1) ∧
    (∀ j < fade,
      windowVal (sweepRaw fs T f0 f1 ampDb).length fade
        ((sweepRaw fs T f0 f1 ampDb).length - fade + j) =
        Real.cos ((j : ℝ) / ((fade : ℝ) - 1) * (π / 2)) ^ 2) ∧
    (∀ j k, j ≤ k → k < fade →
      windowVal (sweepRaw fs T f0 f1 ampDb).length fade
        ((sweepRaw fs T f0 f1 ampDb).length - fade + k) ≤
      windowVal (sweepRaw fs T f0 f1 ampDb).length fade
        ((sweepRaw fs T f0 f1 ampDb).length - fade + j)) ∧
    ((windowedSweep fs T f0 f1 ampDb fade).getD []).getD
      ((sweepRaw fs T f0 f1 ampDb).length - 1) 0 = 0 := by
  have hsome := windowedSweep_eq_some fs T f0 f1 ampDb fade hn
  refine ⟨by rw [hsome]; rfl, fun i hi => windowVal_of_lt _ _ _ hi, ?_, ?_, ?_⟩
  · intro j hj
    rw [windowVal_tail _ _ _ hn, show (sweepRaw fs T f0 f1 ampDb).length - fade + j -
      ((sweepRaw fs T f0 f1 ampDb).length - fade) = j by omega, fadeVal_eq fade j h2]
  · intro j k hjk hk
    rw [windowVal_tail _ _ _ hn, windowVal_tail _ _ _ hn,
      show (sweepRaw fs T f0 f1 ampDb).length - fade + j -
        ((sweepRaw fs T f0 f1 ampDb).length - fade) = j by omega,
      show (sweepRaw fs T f0 f1 ampDb).length - fade + k -
        ((sweepRaw fs T f0 f1 ampDb).length - fade) = k by omega]
    exact fadeVal_nonincreasing fade j k h2 hjk hk
  · rw [hsome, Option.getD_some]
    have hlast : (sweepRaw fs T f0 f1 ampDb).length - 1 < (sweepRaw fs T f0 f1 ampDb).length := by
      omega
    rw [zipWith_mul_getD _ _ _ hlast (by rw [List.length_map, List.length_range]; exact hlast),
      getD_map_range _ _ _ hlast]
    have hidx : (sweepRaw fs T f0 f1 ampDb).length - 1 =
        (sweepRaw fs T f0 f1 ampDb).length - fade + (fade - 1) := by omega
    rw [hidx, windowVal_tail _ _ _ hn,
      show (sweepRaw fs T f0 f1 ampDb).length - fade + (fade - 1) -
        ((sweepRaw fs T f0 f1 ampDb).length - fade) = fade - 1 by omega,
      fadeVal_last fade h2, mul_zero]

/-- Counterexample to C6 as stated: with `fadeout_samples = 0` (a legal
value, and the function's own default) the window is identically 1 and
the generated sweep does not end near zero.  At
`fs = 100`, `d_sweep_sec = log 2 / 8`, `f_start = 1`, `f_end = 2`,
`amp_db = 0`, `fadeout_samples = 0` the sweep has 8 samples and its
final pre-padding sample is `-√2/2 ≈ -0.707`, whose magnitude exceeds
`1/2` — not 0 within floating tolerance. -/
theorem sweep_fade_counterexample :
    ((windowedSweep 100 (Real.log 2 / 8) 1 2 0 0).getD []).length = 8 ∧
    ((windowedSweep 100 (Real.log 2 / 8) 1 2 0 0).getD []).getD 7 0 = -(Real.sqrt 2 / 2) ∧
    (1 / 2 : ℝ) ≤ |(-(Real.sqrt 2 / 2) : ℝ)| := by
  have hl1 := Real.log_two_gt_d9
  have hl2 := Real.log_two_lt_d9
  have hlpos : 0 < Real.log 2 := by linarith
  have hfloor : ⌊Real.log 2 / 8 * 100⌋ = 8 := by
    rw [Int.floor_eq_iff]
    constructor
    · have : Real.log 2 / 8 * 100 = Real.log 2 * 12.5 := by ring
      rw [this]
      push_cast
      nlinarith
    · have : Real.log 2 / 8 * 100 = Real.log 2 * 12.5 := by ring
      rw [this]
      push_cast
      nlinarith
  have hn : numSweepSamples 100 (Real.log 2 / 8) = 8 := by
    rw [numSweepSamples, hfloor]
    rfl
  have hlen : (sweepRaw 100 (Real.log 2 / 8) 1 2 0).length = 8 := by
    rw [sweepRaw_length, hn]
  have hsome := windowedSweep_eq_some 100 (Real.log 2 / 8) 1 2 0 0 (Nat.zero_le _)
  have hval : (sweepRaw 100 (Real.log 2 / 8) 1 2 0).getD 7 0 = -(Real.sqrt 2 / 2) := by
    rw [sweepRaw]
    rw [hn, getD_map_range _ _ _ (by norm_num)]
    have hT : linVal 0 (Real.log 2 / 8) 8 7 = Real.log 2 / 8 := by
      rw [linVal, if_neg (by norm_num)]
      norm_num
      ring
    rw [hT]
    have hTne : Real.log 2 / 8 ≠ 0 := by positivity
    rw [chirpLog, if_neg (by norm_num : (1 : ℝ) ≠ 2)]
    rw [div_self hTne, Real.rpow_one]
    have h21 : (2 : ℝ) / 1 = 2 := by norm_num
    rw [h21]
    have h18 : Real.log 2 / 8 / Real.log 2 = 1 / 8 := by
      field_simp
      ring
    rw [h18]
    have harg : 2 * π * (1 / 8) * 1 * (2 - 1) + π / 2 = π / 4 + π / 2 := by ring
    rw [harg, Real.cos_add_pi_div_two, Real.sin_pi_div_four]
    norm_num
  refine ⟨?_, ?_, ?_⟩
  · rw [hsome, Option.getD_some, List.length_zipWith, List.length_map,
      List.length_range, hlen]
    omega
  · rw [hsome, Option.getD_some,
      zipWith_mul_getD _ _ 7 (by rw [hlen]; norm_num)
        (by rw [List.length_map, List.length_range, hlen]; norm_num),
      getD_map_range _ _ _ (by rw [hlen]; norm_num)]
    rw [hlen, windowVal_of_lt 8 0 7 (by norm_num), mul_one, hval]
  · rw [abs_neg, abs_of_nonneg (by positivity : (0 : ℝ) ≤ Real.sqrt 2 / 2)]
    have h1 : (1 : ℝ) ≤ Real.sqrt 2 := by
      rw [show (1 : ℝ) = Real.sqrt 1 from (Real.sqrt_one).symm]
      exact Real.sqrt_le_sqrt (by norm_num)
    linarith

/-- Witness for the amended C6 at `fs = 4`, `d_sweep_sec = 1`,
`f_start = 1`, `f_end = 2`, `amp_db = 0`, `fadeout_samples = 2`. -/
theorem sweep_fade_window_witness :
    (windowedSweep 4 1 1 2 0 2).isSome = true ∧
    ((windowedSweep 4 1 1 2 0 2).getD []).getD ((sweepRaw 4 1 1 2 0).length - 1) 0 = 0 := by
  have hn4 : numSweepSamples 4 1 = 4 := by
    have hfloor : ⌊(1 : ℝ) * 4⌋ = 4 := by
      rw [Int.floor_eq_iff]
      constructor <;> norm_num
    rw [numSweepSamples, hfloor]
    rfl
  have hn : 2 ≤ (sweepRaw 4 1 1 2 0).length := by
    rw [sweepRaw_length, hn4]
    norm_num
  have h := sweep_fade_window 4 1 1 2 0 2 (by norm_num) hn
  exact ⟨h.1, h.2.2.2.2⟩

/-! ## C5: the dynamic-limiting bound of `deconvolve` -/

theorem foldl_min_mem (t : List ℝ) (a : ℝ) : t.foldl min a ∈ a :: t := by
  induction t generalizing a with
  | nil => simp
  | cons b r ih =>
    rw [List.foldl_cons]
    have h := ih (min a b)
    rcases List.mem_cons.1 h with h1 | h1
    · rw [h1]
      rcases min_choice a b with h2 | h2 <;> rw [h2] <;> simp
    · exact List.mem_cons_of_mem a (List.mem_cons_of_mem b h1)

theorem npMin_mem (l : List ℝ) (hne : l ≠ []) : npMin l ∈ l := by
  match l with
  | [] => exact absurd rfl hne
  | a :: t => exact foldl_min_mem t a

theorem npMin_abs_nonneg (X : List ℂ) (hne : X ≠ []) :
    0 ≤ npMin (X.map Complex.abs) := by
  refine le_npMin _ _ (by simpa using hne) ?_
  intro b hb
  rcases List.mem_map.1 hb with ⟨z, -, rfl⟩
  exact Complex.abs.nonneg z

theorem npMin_abs_pos (X : List ℂ) (hne : X ≠ []) (h0 : ∀ z ∈ X, z ≠ 0) :
    0 < npMin (X.map Complex.abs) := by
  have hmem := npMin_mem (X.map Complex.abs) (by simpa using hne)
  rcases List.mem_map.1 hmem with ⟨z, hz, heq⟩
  rw [← heq]
  exact Complex.abs.pos (h0 z hz)

theorem one_le_dynK (D : ℝ) : (1 : ℝ) ≤ (10 : ℝ) ^ (|D| / 20) := by
  calc (1 : ℝ) = (10 : ℝ) ^ (0 : ℝ) := (Real.rpow_zero 10).symm
  _ ≤ (10 : ℝ) ^ (|D| / 20) :=
      Real.rpow_le_rpow_of_exponent_le (by norm_num) (by positivity)

/-- The magnitude of every post-clamp bin lies between the pre-clamp
minimum magnitude and `min * 10^(|D|/20)`. -/
theorem dynLimit_mem_bounds (X : List ℂ) (D : ℝ) (z : ℂ) (hz : z ∈ dynLimit D X) :
    npMin (X.map Complex.abs) ≤ Complex.abs z ∧
    Complex.abs z ≤ npMin (X.map Complex.abs) * (10 : ℝ) ^ (|D| / 20) := by
  have hne : X ≠ [] := by
    rintro rfl
    simp [dynLimit] at hz
  have hm0 := npMin_abs_nonneg X hne
  have hK1 := one_le_dynK D
  have hL0 : 0 ≤ npMin (X.map Complex.abs) * (10 : ℝ) ^ (|D| / 20) := by
    have : (0 : ℝ) ≤ (10 : ℝ) ^ (|D| / 20) := by linarith
    exact mul_nonneg hm0 this
  have hmL : npMin (X.map Complex.abs) ≤
      npMin (X.map Complex.abs) * (10 : ℝ) ^ (|D| / 20) :=
    le_mul_of_one_le_right hm0 hK1
  simp only [dynLimit, List.mem_map] at hz
  obtain ⟨w, hw, rfl⟩ := hz
  split_ifs with hclamp
  · rw [map_mul Complex.abs, Complex.abs_ofReal,
      Complex.abs_exp_ofReal_mul_I, mul_one, abs_of_nonneg hL0]
    exact ⟨hmL, le_refl _⟩
  · push_neg at hclamp
    refine ⟨npMin_le _ _ (List.mem_map.2 ⟨w, hw, rfl⟩), hclamp⟩

/-- The phase of every post-clamp bin equals its pre-clamp phase
(meaningful when no reference bin is exactly zero, so the magnitude
ceiling is strictly positive). -/
theorem dynLimit_arg (X : List ℂ) (D : ℝ) (hne : X ≠ []) (h0 : ∀ z ∈ X, z ≠ 0) :
    ∀ i < X.length, ((dynLimit D X).getD i 0).arg = (X.getD i 0).arg := by
  intro i hi
  have hL0 : 0 < npMin (X.map Complex.abs) * (10 : ℝ) ^ (|D| / 20) := by
    have hm := npMin_abs_pos X hne h0
    have hK : (0 : ℝ) < (10 : ℝ) ^ (|D| / 20) := lt_of_lt_of_le one_pos (one_le_dynK D)
    positivity
  simp only [dynLimit]
  rw [List.getD_eq_getElem?_getD, List.getElem?_map, List.getElem?_eq_getElem hi]
  simp only [Option.map_some', Option.getD_some, List.getD_eq_getElem?_getD,
    List.getElem?_eq_getElem hi]
  split_ifs with hclamp
  · rw [Complex.arg_real_mul _ hL0, Complex.exp_mul_I]
    exact Complex.arg_cos_add_sin_mul_I (Complex.arg_mem_Ioc _)
  · rfl

/-- C5: for every reference signal whose spectrum has no exactly-zero
bin (the degenerate case the spec leaves to the caller) and every
`max_inverse_dynamic_db = D`, after the dynamic-limiting step of
`deconvolve` each bin of the inverse spectrum has magnitude at most
(minimum pre-clamp bin magnitude) `* 10^(|D|/20)`, the ratio between
any two post-clamp bin magnitudes never exceeds `10^(|D|/20)`, and
every bin's phase is identical to its pre-clamp phase. -/
theorem dynamic_limiting_bound (x : List ℝ) (D : ℝ) (hx : x ≠ [])
    (hbins : ∀ z ∈ rfftL x (nfft x.length), z ≠ 0) :
    (∀ z ∈ dynLimit D ((rfftL x (nfft x.length)).map fun w => 1 / w),
      Complex.abs z ≤
        npMin (((rfftL x (nfft x.length)).map fun w => 1 / w).map Complex.abs) *
          (10 : ℝ) ^ (|D| / 20)) ∧
    (∀ z ∈ dynLimit D ((rfftL x (nfft x.length)).map fun w => 1 / w),
      ∀ w ∈ dynLimit D ((rfftL x (nfft x.length)).map fun w => 1 / w),
      Complex.abs z ≤ (10 : ℝ) ^ (|D| / 20) * Complex.abs w) ∧
    (∀ i < ((rfftL x (nfft x.length)).map fun w => 1 / w).length,
      ((dynLimit D ((rfftL x (nfft x.length)).map fun w => 1 / w)).getD i 0).arg =
        (((rfftL x (nfft x.length)).map fun w => 1 / w).getD i 0).arg) := by
  have hbne : rfftL x (nfft x.length) ≠ [] := by
    have := rfftL_length x (nfft x.length)
    intro h
    rw [h] at this
    simp at this
  have hne : ((rfftL x (nfft x.length)).map fun w => 1 / w) ≠ [] := by
    simpa using hbne
  have h0 : ∀ z ∈ (rfftL x (nfft x.length)).map fun w => 1 / w, z ≠ 0 := by
    intro z hz
    rcases List.mem_map.1 hz with ⟨w, hw, rfl⟩
    exact one_div_ne_zero (hbins w hw)
  refine ⟨fun z hz => (dynLimit_mem_bounds _ D z hz).2, ?_, dynLimit_arg _ D hne h0⟩
  intro z hz w hw
  have h1 := (dynLimit_mem_bounds _ D z hz).2
  have h2 := (dynLimit_mem_bounds _ D w hw).1
  have hK0 : (0 : ℝ) ≤ (10 : ℝ) ^ (|D| / 20) :=
    le_trans zero_le_one (one_le_dynK D)
  calc Complex.abs z ≤
      npMin ((((rfftL x (nfft x.length)).map fun w => 1 / w)).map Complex.abs) *
        (10 : ℝ) ^ (|D| / 20) := h1
  _ ≤ Complex.abs w * (10 : ℝ) ^ (|D| / 20) := mul_le_mul_of_nonneg_right h2 hK0
  _ = (10 : ℝ) ^ (|D| / 20) * Complex.abs w := mul_comm _ _

/-- Witness for C5 at the reference `x = [1]`, `D = 0`: the padded
transform length is 2 and both bins equal 1, so the hypotheses hold. -/
theorem dynamic_limiting_bound_witness :
    ([(1 : ℝ)] ≠ []) ∧
    (∀ z ∈ rfftL [(1 : ℝ)] (nfft ([(1 : ℝ)]).length), z ≠ 0) ∧
    (∀ z ∈ dynLimit 0 ((rfftL [(1 : ℝ)] (nfft ([(1 : ℝ)]).length)).map fun w => 1 / w),
      Complex.abs z ≤
        npMin (((rfftL [(1 : ℝ)] (nfft ([(1 : ℝ)]).length)).map fun w => 1 / w).map
          Complex.abs) * (10 : ℝ) ^ (|(0 : ℝ)| / 20)) := by
  have hbins : ∀ z ∈ rfftL [(1 : ℝ)] (nfft ([(1 : ℝ)]).length), z ≠ 0 := by
    intro z hz
    have hlen : ([(1 : ℝ)]).length = 1 := rfl
    have hn : nfft ([(1 : ℝ)]).length = 2 := by
      rw [hlen, nfft, Nat.clog_one_right]
      norm_num
    rw [hn] at hz
    simp only [rfftL, List.mem_map, List.mem_range] at hz
    obtain ⟨k, hk, rfl⟩ := hz
    rw [Finset.sum_range_succ, Finset.sum_range_one]
    simp only [List.getD_cons_zero, List.getD_cons_succ, List.getD_nil, Nat.cast_zero,
      Complex.ofReal_one, Complex.ofReal_zero, mul_zero, zero_mul, zero_div,
      Complex.exp_zero, mul_one, one_mul, add_zero, zero_add]
    exact one_ne_zero
  exact ⟨by simp, hbins, (dynamic_limiting_bound [(1 : ℝ)] 0 (by simp) hbins).1⟩

end GuidedHRTFs
